import Mathlib

/-!
Shallow embedding of SoundJSON's `sound_json.py` (the normalization engine of
the SoundJSON repository) and proofs about it.

Python strings are modelled as `String` or `List Char` (the preprocessor works
on `List Char` so that Python's `str.split`/`str.replace` semantics can be
reasoned about by structural induction).  Python dicts are modelled as
association lists with update-in-place-or-append insertion, which preserves
Python's insertion-order iteration semantics.  Floating point buffers are
modelled over `ℚ`; numpy calls that raise (reduction over an empty array,
broadcasting a 32-element ramp onto a shorter slice) are modelled as
`Except`/`Option` failures.  External collaborators (the sf2 parser, the sfz
tokenizer, librosa, pydub/lame, the filesystem) are supplied as environment
records of opaque functions, exactly at the call boundaries the source uses.
-/

/-! ## Python-style string primitives (on `List Char`) -/

/-- Characters removed by Python's `str.strip()`. -/
def isPySpace (c : Char) : Bool :=
  c = ' ' || c = '\t' || c = '\n' || c = '\r' || c = '\x0B' || c = '\x0C'

/-- Python `str.strip()`. -/
def pyStrip (s : List Char) : List Char :=
  ((s.dropWhile isPySpace).reverse.dropWhile isPySpace).reverse

/-- Python `str.split(sep)` for a one-character separator: keeps empty pieces,
returns `[""]` on the empty string. -/
def pySplit (sep : Char) : List Char → List (List Char)
  | [] => [[]]
  | c :: rest =>
    if c = sep then [] :: pySplit sep rest
    else
      match pySplit sep rest with
      | [] => [[c]]
      | t :: ts => (c :: t) :: ts

/-- The text before the first `//`, i.e. Python `line.split("//")[0]`. -/
def takeBeforeSS : List Char → List Char
  | [] => []
  | c :: rest =>
    if ['/', '/'].isPrefixOf (c :: rest) then []
    else c :: takeBeforeSS rest

/-- Python `pat in line` substring containment. -/
def containsSub (pat : List Char) : List Char → Bool
  | [] => pat.isEmpty
  | c :: rest => pat.isPrefixOf (c :: rest) || containsSub pat rest

/-- Worker for `replaceSub`; the fuel is the length of the string, which is
enough because every step consumes at least one character. -/
def replaceSubGo (k v : List Char) : Nat → List Char → List Char
  | _, [] => []
  | 0, s => s
  | fuel + 1, c :: rest =>
    if k.isPrefixOf (c :: rest) then v ++ replaceSubGo k v fuel ((c :: rest).drop k.length)
    else c :: replaceSubGo k v fuel rest

/-- Python `line.replace(k, v)`: all non-overlapping occurrences, left to
right.  (For an empty pattern Python intersperses `v`; that edge case is not
reachable from the claims and we return the string unchanged.) -/
def replaceSub (k v s : List Char) : List Char :=
  if k.isEmpty then s else replaceSubGo k v s.length s

/-- Worker for `pySplitSub` with a length fuel. -/
def pySplitSubGo (pat : List Char) : Nat → List Char → List (List Char)
  | _, [] => [[]]
  | 0, s => [s]
  | fuel + 1, c :: rest =>
    if pat.isPrefixOf (c :: rest) then
      [] :: pySplitSubGo pat fuel ((c :: rest).drop pat.length)
    else
      match pySplitSubGo pat fuel rest with
      | [] => [[c]]
      | t :: ts => (c :: t) :: ts

/-- Python `str.split(pat)` for a multi-character separator. -/
def pySplitSub (pat s : List Char) : List (List Char) :=
  if pat.isEmpty then [s] else pySplitSubGo pat s.length s

/-- Model of `os.path.split` for forward-slash paths (root-anchored corner cases such
as `"/b"` are simplified: we return `("", "b")` where Python keeps `"/"`). -/
def splitLast (s : List Char) : List Char × List Char :=
  match s with
  | [] => ([], [])
  | c :: rest =>
    if rest.contains '/' then ((c :: (splitLast rest).1), (splitLast rest).2)
    else if c = '/' then ([], rest)
    else ([], c :: rest)

/-- Model of `os.path.split` on `String`. -/
def splitLastS (s : String) : String × String :=
  (⟨(splitLast s.toList).1⟩, ⟨(splitLast s.toList).2⟩)

/-- Model of `os.path.splitext(s)[0]` for forward-slash paths (a dot only counts inside
the last path component; Python's special handling of leading-dot file names
is not needed by the claims). -/
def dropExtL (s : List Char) : List Char :=
  let rev := s.reverse
  let idx := rev.takeWhile (fun c => !(c == '.' || c == '/'))
  match rev.drop idx.length with
  | '.' :: _ => (rev.drop (idx.length + 1)).reverse
  | _ => s

/-- Model of `os.path.splitext(s)[0]` on `String`. -/
def dropExtS (s : String) : String := ⟨dropExtL s.toList⟩

/-- Model of `os.path.join(a, b)` for forward-slash paths. -/
def pathJoinS (a b : String) : String :=
  if a = "" then b
  else if b.startsWith "/" then b
  else a ++ "/" ++ b

/-- Model of `os.path.join` on `List Char`. -/
def pathJoinL (a b : List Char) : List Char :=
  if a.isEmpty then b
  else if b.headD ' ' = '/' then b
  else a ++ '/' :: b

/-! ## Python dict as an association list (insertion-ordered) -/

/-- Python `d[k] = v`: overwrite in place if the key exists, else append. -/
def dictInsert {κ α : Type} [DecidableEq κ] (d : List (κ × α)) (k : κ) (v : α) :
    List (κ × α) :=
  match d with
  | [] => [(k, v)]
  | (k', v') :: rest => if k' = k then (k', v) :: rest else (k', v') :: dictInsert rest k v

/-- Python `d.get(k)`. -/
def dictLookup {κ α : Type} [DecidableEq κ] (d : List (κ × α)) (k : κ) : Option α :=
  match d with
  | [] => none
  | (k', v) :: rest => if k' = k then some v else dictLookup rest k

/-- Digit-string accumulator for `pyInt?`; `none` on a non-digit. -/
def digitsToNat (acc : Nat) : List Char → Option Nat
  | [] => some acc
  | c :: rest => if c.isDigit then digitsToNat (acc * 10 + (c.toNat - 48)) rest else none

/-- Python `int(str)`: optional surrounding whitespace, optional sign, a
nonempty digit run; `none` models the raised `ValueError`. -/
def pyInt? (s : String) : Option Int :=
  match pyStrip s.toList with
  | [] => none
  | '-' :: rest => if rest.isEmpty then none else (digitsToNat 0 rest).map (fun n => -(n : Int))
  | '+' :: rest => if rest.isEmpty then none else (digitsToNat 0 rest).map (fun n => (n : Int))
  | t => (digitsToNat 0 t).map (fun n => (n : Int))

/-! ## Values stored in a zone dict -/

/-- A Python value as stored in one of the converter's dicts: the sfz parser
produces strings, the pipeline adds ints, counts and floats. -/
inductive PVal where
  | s (v : String)
  | i (v : Int)
  | n (v : Nat)
  | q (v : ℚ)
deriving DecidableEq

/-- A zone/section dict: `String` keys to `PVal` values. -/
abbrev AttrMap := List (String × PVal)

/-- Lookup in an `AttrMap`. -/
def lookupAttr (d : AttrMap) (k : String) : Option PVal := dictLookup d k

/-- The string payload of a `PVal` (the parser only produces strings). -/
def pvalStr : PVal → String
  | .s v => v
  | _ => ""

/-- Python `int(x)` on a dict value: parses strings, passes ints through,
truncates floats; `none` models the raised `ValueError`/`TypeError`. -/
def pyIntOfPVal : PVal → Option Int
  | .s v => pyInt? v
  | .i v => some v
  | .n v => some (Int.ofNat v)
  | .q v => some (Int.tdiv v.num (Int.ofNat v.den))

/-! ## Audio normalization (`buffer2mp3b64` / `buffer2wavb64`) -/

/-- Model of `np.max` over a nonempty buffer (callers guard emptiness; the default is
never observable). -/
def listMax {α : Type} [Max α] [Inhabited α] : List α → α
  | [] => default
  | a :: rest => rest.foldl max a

/-- The ramp `np.arange(32) / 32`, the linear fade-in ramp. -/
def ramp32 : List ℚ := (List.range 32).map (fun i => (i : ℚ) / 32)

/-- The in-place slice product `y[:32] *= np.arange(32) / 32`.  numpy
broadcasts the 32-element ramp onto the slice `y[:32]`, which succeeds exactly
when that slice has 32 elements; for any shorter buffer numpy raises
`ValueError: operands could not be broadcast together`, modelled as `none`. -/
def fadeIn32 (y : List ℚ) : Option (List ℚ) :=
  if 32 ≤ y.length then
    some (List.zipWith (fun a b => a * b) (y.take 32) ramp32 ++ y.drop 32)
  else none

/-- The `float → np.int16` cast: truncation toward zero. -/
def ratTrunc (q : ℚ) : Int := Int.tdiv q.num (Int.ofNat q.den)

/-- Model of `buffer2mp3b64`: peak-normalize to full scale, apply the 32-sample
fade-in, quantize by `2 ** 14` to int16, and hand the PCM to the external
mp3 encoder `enc`.  Returns the payload together with the `"mp3"` format tag.
`np.max(np.abs(y))` on an empty buffer raises, as does the fade-in broadcast
on a nonempty buffer shorter than 32 samples. -/
def buffer2mp3b64 (enc : List Int → Nat → String) (y : List ℚ) (samplerate : Nat) :
    Except String (String × String) :=
  if y.isEmpty then .error "zero-size array to reduction operation maximum"
  else
    let m := listMax (y.map (fun a => |a|))
    let y1 := y.map (fun a => a / m)
    match fadeIn32 y1 with
    | none => .error "operands could not be broadcast together"
    | some y2 => .ok (enc (y2.map (fun a => ratTrunc (a * 16384))) samplerate, "mp3")

/-- Model of `buffer2wavb64`: the input is int16 by construction (the dtype check
passes), the fade-in assignment `z[:32] = y[:32] * np.arange(32) / 32`
broadcasts and therefore needs at least 32 samples, and the result goes to the
external wav encoder `enc`. -/
def buffer2wavb64 (enc : List Int → Nat → String) (y : List Int) (samplerate : Nat) :
    Except String String :=
  if 32 ≤ y.length then
    .ok (enc
      (List.zipWith (fun a i => ratTrunc ((a : ℚ) * ((i : ℚ) / 32))) (y.take 32) (List.range 32)
        ++ y.drop 32) samplerate)
  else .error "could not broadcast input array"

/-! ## sfz pipeline (`sfz2soundJson`) -/

/-- The macro table `replaceDict`: directive name to replacement text,
insertion-ordered like a Python dict. -/
abbrev ReplaceDict := List (List Char × List Char)

/-- The patch state accumulated by `sfz2soundJson` (the keys of
`soundJsonDict` that the section loop reads or writes). -/
structure SfzState where
  globalDict : AttrMap
  masterDict : AttrMap
  groupDict : AttrMap
  displayName : String
  path : String × String
  success : Bool
  samples : List AttrMap
  samplesLoadPoint : String
deriving DecidableEq

/-- What a fresh (non-cached) sfz conversion produces: the final patch state,
whether `toFile` ran (it always does, before the gold comparison), and the
fresh serialization `soundJSON = json.dumps(...)` used for that comparison. -/
structure SfzOut where
  st : SfzState
  written : Bool
  freshSerial : String
deriving DecidableEq

/-- The three possible returns of `sfz2soundJson`: the raw text of an already
existing output file, Python `None` for a missing input, or a fresh patch. -/
inductive SfzRet where
  | cached (text : String)
  | noSource
  | fresh (out : SfzOut)
deriving DecidableEq

/-- The environment of one `sfz2soundJson` call: the input path plus every
external collaborator the function touches (filesystem, sfz tokenizer,
librosa, mp3 encoder, note-name conversion, json serialization). -/
structure SfzEnv where
  filename : String
  outExists : Bool
  cachedText : String
  srcText : Option (List Char)
  evalStr : List Char → List Char
  parse : List Char → List (String × AttrMap)
  fileExists : String → Bool
  load : String → List ℚ × Nat
  readB64 : String → String
  encodeMp3 : List Int → Nat → String
  noteToMidi : String → Option Int
  gold : Option String
  serialize : SfzState → String

/-- The recursive call `sfz2soundJson(includeFilename, ...)` made by the
`#include` branch, abstracted as an oracle so the preprocessor stays
structurally recursive; it receives a copy of the macro table (the callee
cannot mutate the caller's table) and returns the serialized child patch. -/
abbrev IncOracle := List Char → ReplaceDict → Except String (List Char)

/-- The `#define` parse: `line.split(" ")[1]` is the macro name and
`"".join(line.split(" ")[2:])` the replacement; `none` models the
`IndexError` when the line has no second space-separated token. -/
def parseDefine (line : List Char) : Option (List Char × List Char) :=
  let toks := pySplit ' ' line
  match toks.get? 1 with
  | none => none
  | some k => some (k, (toks.drop 2).flatten)

/-- The preprocessing loop of `sfz2soundJson` (lines `for ogline in
preprocFile.split("\n")`): strip, drop `//` comments on non-comment lines,
apply every macro replacement in table order, splice recursive inclusions,
record `#define` lines, and accumulate the flattened text. -/
def preprocessLines (inc : IncOracle) (env : SfzEnv) :
    List (List Char) → ReplaceDict → List Char → Except String (List Char × ReplaceDict)
  | [], tbl, acc => .ok (acc, tbl)
  | og0 :: rest, tbl, acc =>
    let og := pyStrip og0
    let line0 := takeBeforeSS og
    let line := tbl.foldl (fun l kv => replaceSub kv.1 kv.2 l) line0
    let acc1 := acc ++ (if ['/', '/'].isPrefixOf og then og else line)
    if containsSub "#include".toList line then
      let after := ((pySplitSub "#include".toList line).get? 1).getD []
      let tok := (pySplit ' ' (pyStrip after)).headD []
      let includeFilename := pathJoinL (splitLast env.filename.toList).1 (env.evalStr tok)
      match inc includeFilename tbl with
      | .error e => .error e
      | .ok childText => preprocessLines inc env rest tbl ((acc1 ++ '\n' :: childText ++ ['\n']) ++ ['\n'])
    else if "#define".toList.isPrefixOf line then
      match parseDefine line with
      | none => .error "IndexError: list index out of range"
      | some kv => preprocessLines inc env rest (dictInsert tbl kv.1 kv.2) (acc1 ++ ['\n'])
    else preprocessLines inc env rest tbl (acc1 ++ ['\n'])

/-- Model of `try: int(...) except: sfz_note_to_midi_key(...)` on the merged region's
`pitch_keycenter` value. -/
def pitchResolve (env : SfzEnv) (pv : PVal) : Option Int :=
  match pyIntOfPVal pv with
  | some n => some n
  | none => env.noteToMidi (pvalStr pv)

/-- The inheritance merge for one region: `for d in [globalDict, masterDict,
groupDict]: for k, v in d.items(): sampleDict[k] = v` — scope values are
written over the region dict, in that order. -/
def inheritApply (g m gr d : AttrMap) : AttrMap :=
  [g, m, gr].foldl (fun t sc => sc.foldl (fun t2 kv => dictInsert t2 kv.1 kv.2) t) d

/-- One `region` section (lines 184-223 of `sound_json.py`): merge the
inherited scopes over the region dict, resolve the sample path, silently skip
a missing file, decode, record `gain = 0.7 / np.max(y)`, encode the payload,
assign `sampleNo` as the current sample count, resolve `pitch_keycenter`, and
append.  Errors model the uncaught Python exceptions. -/
def processRegion (env : SfzEnv) (compress : Bool) (st : SfzState) (d0 : AttrMap) :
    Except String SfzState :=
  let d1 := inheritApply st.globalDict st.masterDict st.groupDict d0
  match lookupAttr d1 "sample" with
  | none => .error "KeyError: sample"
  | some sv =>
    let sampleFilename := pathJoinS st.samplesLoadPoint (pvalStr sv)
    let d2 := dictInsert d1 "sampleFilename" (PVal.s sampleFilename)
    if env.fileExists sampleFilename then
      let y := (env.load sampleFilename).1
      let samplerate := (env.load sampleFilename).2
      if y.isEmpty then .error "zero-size array to reduction operation maximum"
      else
        let d3 := dictInsert d2 "gain" (PVal.q ((7 : ℚ) / 10 / listMax y))
        match (if compress then buffer2mp3b64 env.encodeMp3 y samplerate
               else Except.ok (env.readB64 sampleFilename, "wav")) with
        | .error e => .error e
        | .ok af =>
          let d4 := dictInsert (dictInsert (dictInsert (dictInsert (dictInsert d3
            "sampleNo" (PVal.n st.samples.length))
            "lengthSamples" (PVal.n y.length))
            "sampleRate" (PVal.n samplerate))
            "audioFormat" (PVal.s af.2))
            "audioData" (PVal.s af.1)
          match lookupAttr d4 "pitch_keycenter" with
          | none => .error "KeyError: pitch_keycenter"
          | some pv =>
            match pitchResolve env pv with
            | none => .error "sfz_note_to_midi_key failed"
            | some pk =>
              .ok { st with samples := st.samples ++ [dictInsert d4 "pitch_keycenter" (PVal.i pk)] }
    else .ok st

/-- A `control` section: redirect the load point when `default_path` or
`prefix_sfz_path` is present. -/
def controlStep (env : SfzEnv) (st : SfzState) (d : AttrMap) : SfzState :=
  if (lookupAttr d "default_path").isSome ∨ (lookupAttr d "prefix_sfz_path").isSome then
    let lp := pathJoinS (splitLastS env.filename).1
      (String.replace (pvalStr ((lookupAttr d "default_path").getD (PVal.s ""))) "\\" "/")
    { st with samplesLoadPoint := lp }
  else st

/-- One `(sectionName, sampleDict)` pair of the tokenized stream. -/
def processSection (env : SfzEnv) (compress : Bool) (st : SfzState)
    (sec : String × AttrMap) : Except String SfzState :=
  if sec.1 = "region" then processRegion env compress st sec.2
  else if sec.1 = "global" then .ok { st with globalDict := sec.2 }
  else if sec.1 = "master" then .ok { st with masterDict := sec.2 }
  else if sec.1 = "group" then .ok { st with groupDict := sec.2 }
  else if sec.1 = "control" then .ok (controlStep env st sec.2)
  else if sec.1 = "comment" ∨ sec.1 = "curve" ∨ sec.1 = "" then .ok st
  else .error ("Unknown sfz header " ++ sec.1)

/-- The section loop. -/
def runSections (env : SfzEnv) (compress : Bool) :
    SfzState → List (String × AttrMap) → Except String SfzState
  | st, [] => .ok st
  | st, sec :: rest =>
    match processSection env compress st sec with
    | .error e => .error e
    | .ok st' => runSections env compress st' rest

/-- The initial `soundJsonDict` (lines 173-181). -/
def sfzInit (env : SfzEnv) : SfzState :=
  { globalDict := [], masterDict := [], groupDict := [],
    displayName := (splitLastS env.filename).2.dropRight 4,
    path := splitLastS (env.filename.dropRight 4),
    success := true, samples := [],
    samplesLoadPoint := (splitLastS env.filename).1 }

/-- The tail of `sfz2soundJson`: `toFile` writes the output (always, before
any comparison), then the fresh serialization is byte-compared against the
gold file if one exists, and on mismatch only the in-memory patch's `success`
flag is flipped. -/
def goldApply (env : SfzEnv) (st : SfzState) : SfzOut :=
  let fresh := env.serialize st
  match env.gold with
  | none => { st := st, written := true, freshSerial := fresh }
  | some g =>
    if g ≠ fresh then { st := { st with success := false }, written := true, freshSerial := fresh }
    else { st := st, written := true, freshSerial := fresh }

/-- Model of `sfz2soundJson(filename, compress, keyCount=128, replaceDict={})`:
return the raw text of an existing output file, return `None` for a missing
input, otherwise preprocess, tokenize, run the section loop, write, and do
the gold comparison.  The returned `ReplaceDict` is the state of the (shared,
mutable, default-argument) macro table after the call. -/
def sfz2soundJson (inc : IncOracle) (env : SfzEnv) (compress : Bool) (tbl : ReplaceDict) :
    Except String (SfzRet × ReplaceDict) :=
  if env.outExists then .ok (.cached env.cachedText, tbl)
  else
    match env.srcText with
    | none => .ok (.noSource, tbl)
    | some txt =>
      match preprocessLines inc env (pySplit '\n' txt) tbl [] with
      | .error e => .error e
      | .ok pt =>
        match runSections env compress (sfzInit env) (env.parse pt.1) with
        | .error e => .error e
        | .ok st => .ok (.fresh (goldApply env st), pt.2)

/-- The dispatcher scenario behind the default-argument claim: `convertFile`
calls `sfz2soundJson(f, compress=compress)` with no explicit `replaceDict`,
so every top-level text conversion in one process shares the one default
table object; converting `e1` first threads the table it leaves behind into
the conversion of `e2`. -/
def convertTwiceDefault (inc : IncOracle) (e1 e2 : SfzEnv) (compress : Bool) :
    Except String (SfzRet × ReplaceDict) :=
  match sfz2soundJson inc e1 compress [] with
  | .ok r1 => sfz2soundJson inc e2 compress r1.2
  | .error _ => sfz2soundJson inc e2 compress []

/-! ## sf2 pipeline (`sf22soundJson`) -/

/-- A decoded sf2 sample header as the sf2utils library exposes it: name, raw
16-bit PCM, sample rate, optional original pitch, and the loop attributes
`(start_loop, end_loop, start)` when the header carries them. -/
structure Sf2Sample where
  name : String
  raw : List Int
  sample_rate : Nat
  original_pitch : Option Int
  loopInfo : Option (Int × Int × Int)
deriving DecidableEq

/-- An instrument bag: optional attached sample and optional per-zone root
key override (`base_note`). -/
structure Sf2Bag where
  sample : Option Sf2Sample
  base_note : Option Int
deriving DecidableEq

/-- A decoded sf2 instrument. -/
structure Sf2Inst where
  name : String
  bags : List Sf2Bag
deriving DecidableEq

/-- One entry of `soundJsonDict["samples"]` built by `processSf2Sample`. -/
structure Sf2Zone where
  sampleNo : Nat
  channels : Nat
  sample_rate : Nat
  sample : String
  lengthSamples : Nat
  audioFormat : String
  audioData : String
  pitch_keycenter : Int
  gain : ℚ
  loopMeta : Option (Int × Int × String)
  samplesLoadPoint : String
deriving DecidableEq

/-- The per-instrument `soundJsonDict` built by `process_instrument`. -/
structure Sf2Patch where
  source : String
  displayName : String
  name : String
  percussion : Nat
  percussiveSampleIndex : Int
  loop : Nat
  success : Bool
  path : List String
  samples : List Sf2Zone
  outFilename : String
deriving DecidableEq

/-- The environment of one `sf22soundJson` call: input path, skip-policy
inputs, the decoded container, and the external audio encoders. -/
structure Sf2Env where
  inFilename : String
  force : Bool
  existingJsons : List String
  cachedPatches : List (String × Sf2Patch)
  instruments : List Sf2Inst
  encodeMp3 : List Int → Nat → String
  encodeWav : List Int → Nat → String

/-- The two possible returns of `sf22soundJson`: patches merged from already
existing JSON files, or freshly computed patches. -/
inductive Sf2Ret where
  | cachedR (patches : List (String × Sf2Patch))
  | computed (patches : List (String × Sf2Patch))
deriving DecidableEq

/-- Model of `sanitize_filename`. -/
def sanitize_filename (name : String) : String :=
  let safe := ['-', '_', '.', '(', ')', ' ']
  let sanitized := name.toList.map (fun c => if c.isAlphanum || safe.contains c then c else '_')
  let stripped := pyStrip sanitized
  if stripped.isEmpty then "instrument" else ⟨stripped⟩

/-- The instrument-collection loop (lines 86-96): skip any instrument named
`"EOI"`, and give every kept instrument a unique sanitized file name using
the `name_counts` table. -/
def sf2CollectGo (counts : List (String × Nat)) : List Sf2Inst → List (Sf2Inst × String)
  | [] => []
  | inst :: rest =>
    if inst.name = "EOI" then sf2CollectGo counts rest
    else
      let s := sanitize_filename inst.name
      let c := (dictLookup counts s).getD 0
      let u := if c = 0 then s else s ++ "_" ++ toString c
      (inst, u) :: sf2CollectGo (dictInsert counts s (c + 1)) rest

/-- The `pitch_keycenter` resolution for an sf2 sample (lines 321-324): zone
root-key override first, then the sample header's original pitch, else parse
the sample's name as an integer — failure there raises. -/
def resolveSf2Pitch (sample : Sf2Sample) (bag : Sf2Bag) : Except String Int :=
  match bag.base_note with
  | some p => .ok p
  | none =>
    match sample.original_pitch with
    | some p => .ok p
    | none =>
      match pyInt? sample.name with
      | some n => .ok n
      | none => .error "ValueError: invalid literal for int"

/-- Model of `processSf2Sample`: encode the raw PCM, resolve the pitch, build the zone
dict with `sampleNo = len(samples)` and `gain = 2**16 / np.max(y)`, apply the
percussion re-keying branch when the patch's `percussion` flag is truthy and
the loop-metadata branch when its `loop` flag is truthy, then append. -/
def processSf2Sample (env : Sf2Env) (compress : Bool) (sample : Sf2Sample) (bag : Sf2Bag)
    (p : Sf2Patch) : Except String Sf2Patch :=
  let y := sample.raw
  match (if compress then buffer2mp3b64 env.encodeMp3 (y.map (fun a => (a : ℚ))) sample.sample_rate
         else (buffer2wavb64 env.encodeWav y sample.sample_rate).map (fun s => (s, "wav"))) with
  | .error e => .error e
  | .ok af =>
    match resolveSf2Pitch sample bag with
    | .error e => .error e
    | .ok pk =>
      let z : Sf2Zone :=
        { sampleNo := p.samples.length, channels := 1, sample_rate := sample.sample_rate,
          sample := sample.name, lengthSamples := y.length, audioFormat := af.2,
          audioData := af.1, pitch_keycenter := pk,
          gain := (65536 : ℚ) / ((listMax y : Int) : ℚ), loopMeta := none, samplesLoadPoint := "" }
      let zp := if p.percussion ≠ 0 then
          ({ z with pitch_keycenter := p.percussiveSampleIndex },
           { p with percussiveSampleIndex := p.percussiveSampleIndex + 1 })
        else (z, p)
      let z2 := if sample.loopInfo.isSome ∧ zp.2.loop ≠ 0 then
          match sample.loopInfo with
          | some li =>
            let lm := ((if li.1 < li.2.2 then li.1 else li.1 - li.2.2),
              (if li.1 ≥ li.2.2 then li.2.1 - li.2.2 else li.2.1), "loop_continuous")
            { zp.1 with loopMeta := some lm }
          | none => zp.1
        else zp.1
      .ok { zp.2 with samples := zp.2.samples ++ [z2] }

/-- The bag loop of `process_instrument`: only bags with an attached sample
are processed. -/
def processBags (env : Sf2Env) (compress : Bool) :
    Sf2Patch → List Sf2Bag → Except String Sf2Patch
  | p, [] => .ok p
  | p, bag :: rest =>
    match bag.sample with
    | none => processBags env compress p rest
    | some s =>
      match processSf2Sample env compress s bag p with
      | .error e => .error e
      | .ok p' => processBags env compress p' rest

/-- Model of `process_instrument`: the fresh per-instrument patch dict (lines
101-123), with `percussion = 0`, `percussiveSampleIndex = 45` and `loop = 0`
hard-coded, the bag loop, and the per-instrument output path. -/
def processInstrument (env : Sf2Env) (compress : Bool) (inst : Sf2Inst)
    (uniqueName : String) : Except String Sf2Patch :=
  let fnNoext := dropExtS env.inFilename
  let p0 : Sf2Patch :=
    { source := "sf2", displayName := inst.name, name := inst.name,
      percussion := 0, percussiveSampleIndex := 45, loop := 0, success := true,
      path := [(splitLastS fnNoext).1, (splitLastS fnNoext).2, inst.name],
      samples := [], outFilename := "" }
  match processBags env compress p0 inst.bags with
  | .error e => .error e
  | .ok p => .ok { p with outFilename := pathJoinS fnNoext (uniqueName ++ ".json") }

/-- The per-instrument conversion of every collected instrument; a failure in
any worker propagates out of `sf22soundJson` (the model fixes submission
order as the completion order — the dict key set, hence the patch count, does
not depend on that order). -/
def processAll (env : Sf2Env) (compress : Bool) :
    List (Sf2Inst × String) → Except String (List (String × Sf2Patch))
  | [] => .ok []
  | iu :: rest =>
    match processInstrument env compress iu.1 iu.2 with
    | .error e => .error e
    | .ok p =>
      match processAll env compress rest with
      | .error e => .error e
      | .ok r => .ok ((env.inFilename ++ "_" ++ iu.1.name, p) :: r)

/-- Model of `sf22soundJson`: trust and return existing JSON output unless forced,
else collect the non-`"EOI"` instruments, convert each, and merge the results
into one mapping keyed by `inFilename + "_" + instrument name`. -/
def sf22soundJson (env : Sf2Env) (compress : Bool) : Except String Sf2Ret :=
  if env.force = false ∧ env.existingJsons ≠ [] then .ok (.cachedR env.cachedPatches)
  else
    let instsU := sf2CollectGo [] env.instruments
    if instsU.isEmpty then .ok (.computed [])
    else
      match processAll env compress instsU with
      | .error e => .error e
      | .ok kvs => .ok (.computed (kvs.foldl (fun d kv => dictInsert d kv.1 kv.2) []))

/-! ## Claim C1 -/

/-- Claim C1 (refuted; the spec states the intended sfz semantics, the code
inverts it): with `ampeg_release` set both in the global scope (`"0.5"`) and
on the region itself (`"0.3"`), the merge of lines 183-187 resolves the key
to the inherited global value, because `sampleDict[k] = v` overwrites the
region-explicit entry; the region value does not win.  The second conjunct
records the part of the claim the code does satisfy: among the inherited
scopes the closer one wins (group over global here). -/
theorem claimC1_code_divergence :
    (lookupAttr (inheritApply [("ampeg_release", PVal.s "0.5")] [] []
        [("ampeg_release", PVal.s "0.3"), ("sample", PVal.s "kick.wav")]) "ampeg_release"
      = some (PVal.s "0.5") ∧ PVal.s "0.5" ≠ PVal.s "0.3") ∧
    lookupAttr (inheritApply [("k", PVal.s "glob")] [] [("k", PVal.s "grp")] []) "k"
      = some (PVal.s "grp") := by
  refine ⟨⟨rfl, by decide⟩, rfl⟩

/-! ## Claim C3 -/

/-- Claim C3 (refuted at this input): for the macro declaration
`#define $K a b`, the stored replacement text is `"ab"` — the remainder
tokens joined with the separating spaces removed — not the remainder of the
line as written (`"a b"`). -/
theorem claimC3_counterexample :
    parseDefine "#define $K a b".toList = some ("$K".toList, "ab".toList) ∧
      "ab".toList ≠ "a b".toList := by
  exact ⟨rfl, by decide⟩

/-! ## Claim C4 -/

/-- Claim C4 (refuted at this input): on the nonempty 5-sample buffer the
fade-in step of `buffer2mp3b64` does not succeed with a truncated ramp — the
numpy broadcast of the 32-element ramp onto the short slice raises. -/
theorem claimC4_counterexample :
    buffer2mp3b64 (fun _ _ => "") [1, 1, 1, 1, 1] 44100
        = .error "operands could not be broadcast together" ∧
      ([1, 1, 1, 1, 1] : List ℚ) ≠ [] ∧ ([1, 1, 1, 1, 1] : List ℚ).length < 32 := by
  refine ⟨rfl, by decide, by decide⟩

/-! ## Claim C9 -/

deriving instance DecidableEq for Except

/-- An include oracle that always fails; the witness inputs contain no
inclusion directives, so it is never consulted. -/
def inc0 : IncOracle := fun _ _ => .error "no include"

/-- First conversion of the C9 scenario: a file whose only line is a macro
definition. -/
def envC9a : SfzEnv :=
  { filename := "a.sfz", outExists := false, cachedText := "",
    srcText := some "#define $K vv".toList,
    evalStr := id, parse := fun _ => [],
    fileExists := fun _ => false, load := fun _ => ([], 0),
    readB64 := fun _ => "", encodeMp3 := fun _ _ => "",
    noteToMidi := fun _ => none, gold := none, serialize := fun _ => "" }

/-- Second conversion of the C9 scenario: a file whose text is the macro
name; its tokenizer output (and hence its patch) depends on whether the
macro replacement fired. -/
def envC9b : SfzEnv :=
  { envC9a with
    filename := "b.sfz"
    srcText := some "$K".toList
    parse := fun t =>
      if containsSub "vv".toList t then [("global", [("hit", PVal.s "1")])] else [] }

/-- Claim C9 (confirmed): converting the same second file through the
dispatcher's default-macro-table path gives a different result after the
first file (whose `#define` mutated the shared default table) has been
converted than it gives alone — macro definitions leak across top-level
conversions that use the default. -/
theorem claimC9_shared_default_table :
    convertTwiceDefault inc0 envC9a envC9b false ≠ sfz2soundJson inc0 envC9b false [] := by
  decide

/-- The fade-in broadcast fails exactly on buffers shorter than 32 samples. -/
lemma fadeIn32_none_iff (z : List ℚ) : fadeIn32 z = none ↔ z.length < 32 := by
  constructor
  · intro hn
    by_contra hlt
    have hge : 32 ≤ z.length := by omega
    simp [fadeIn32, hge] at hn
  · intro hlt
    have hge : ¬ 32 ≤ z.length := by omega
    simp [fadeIn32, hge]

/-- Claim C4 (amended, proved): the fade-in step does not truncate the ramp —
it fails (numpy broadcast error) precisely on buffers shorter than 32
samples, so the nonempty lengths 1 through 31 do need a guard; equivalently,
`buffer2mp3b64` raises exactly on buffers shorter than 32 samples. -/
theorem claimC4_amended (y : List ℚ) :
    (fadeIn32 y = none ↔ y.length < 32) ∧
      ∀ enc samplerate,
        ((∃ e, buffer2mp3b64 enc y samplerate = .error e) ↔ y.length < 32) := by
  refine ⟨fadeIn32_none_iff y, fun enc samplerate => ?_⟩
  match y with
  | [] =>
    constructor
    · intro _
      simp
    · intro _
      exact ⟨"zero-size array to reduction operation maximum", rfl⟩
  | a :: l =>
    have hbuf : buffer2mp3b64 enc (a :: l) samplerate =
        (match fadeIn32 ((a :: l).map fun x => x / listMax ((a :: l).map fun b => |b|)) with
         | none => .error "operands could not be broadcast together"
         | some y2 => .ok (enc (y2.map fun q => ratTrunc (q * 16384)) samplerate, "mp3")) := rfl
    rw [hbuf]
    cases hfd : fadeIn32 ((a :: l).map fun x => x / listMax ((a :: l).map fun b => |b|)) with
    | none =>
      have hlen := (fadeIn32_none_iff _).1 hfd
      rw [List.length_map] at hlen
      constructor
      · intro _
        exact hlen
      · intro _
        exact ⟨"operands could not be broadcast together", rfl⟩
    | some y2 =>
      have hnl : ¬ ((a :: l).length < 32) := by
        intro hlt
        have hn2 : fadeIn32 ((a :: l).map fun x => x / listMax ((a :: l).map fun b => |b|))
            = none := (fadeIn32_none_iff _).2 (by rw [List.length_map]; exact hlt)
        rw [hn2] at hfd
        exact Option.noConfusion hfd
      constructor
      · rintro ⟨e, he⟩
        exact Except.noConfusion he
      · intro hlt
        exact absurd hlt hnl

/-- Splitting a separator-free string gives the one-piece split. -/
lemma pySplit_sepFree (sep : Char) (a : List Char) (h : sep ∉ a) :
    pySplit sep a = [a] := by
  induction a with
  | nil => rfl
  | cons c rest ih =>
    have hc : ¬ c = sep := by
      intro e
      apply h
      rw [← e]
      exact List.mem_cons_self c rest
    have hr : sep ∉ rest := by
      intro hm
      exact h (List.mem_cons_of_mem c hm)
    simp only [pySplit]
    rw [if_neg hc, ih hr]

/-- Splitting peels a separator-free piece before a separator. -/
lemma pySplit_append_sep (sep : Char) (a r : List Char) (h : sep ∉ a) :
    pySplit sep (a ++ sep :: r) = a :: pySplit sep r := by
  induction a with
  | nil =>
    simp [pySplit]
  | cons c rest ih =>
    have hc : ¬ c = sep := by
      intro e
      apply h
      rw [← e]
      exact List.mem_cons_self c rest
    have hr : sep ∉ rest := by
      intro hm
      exact h (List.mem_cons_of_mem c hm)
    simp only [List.cons_append, pySplit, List.append_eq]
    rw [if_neg hc, ih hr]

/-- Tokens joined by single spaces, the inverse image of Python's
`" ".join` on space-free tokens. -/
def joinSp : List (List Char) → List Char
  | [] => []
  | [a] => a
  | a :: b :: rest => a ++ ' ' :: joinSp (b :: rest)

/-- Splitting a space-joined list of space-free tokens recovers the tokens. -/
lemma pySplit_joinSp (vs : List (List Char)) (hne : vs ≠ [])
    (h : ∀ t ∈ vs, ' ' ∉ t) : pySplit ' ' (joinSp vs) = vs := by
  induction vs with
  | nil => cases hne rfl
  | cons a rest ih =>
    cases rest with
    | nil => exact pySplit_sepFree ' ' a (h a (by simp))
    | cons b rest2 =>
      have hj : joinSp (a :: b :: rest2) = a ++ ' ' :: joinSp (b :: rest2) := rfl
      rw [hj, pySplit_append_sep ' ' a _ (h a (by simp)),
        ih (by simp) (fun t ht => h t (List.mem_cons_of_mem a ht))]

/-- Claim C3 (amended, proved): for a macro-declaration line written as a
directive keyword, a name and one or more value tokens, all space-free and
separated by single spaces, the stored macro name is the second
space-separated token and the stored replacement text is the concatenation
of the remaining tokens with their separating spaces removed (not the
remainder of the line as written). -/
theorem claimC3_amended (kw n : List Char) (vs : List (List Char))
    (hkw : ' ' ∉ kw) (hn : ' ' ∉ n) (hvs : ∀ t ∈ vs, ' ' ∉ t) (hne : vs ≠ []) :
    parseDefine (kw ++ ' ' :: (n ++ ' ' :: joinSp vs)) = some (n, vs.flatten) := by
  simp only [parseDefine]
  rw [pySplit_append_sep ' ' kw _ hkw, pySplit_append_sep ' ' n _ hn,
    pySplit_joinSp vs hne hvs]
  rfl

/-- Witness for the amended C3 at the concrete line `#define $K a b`. -/
theorem claimC3_amended_witness :
    parseDefine ("#define".toList ++ ' ' :: ("$K".toList ++ ' ' :: joinSp ["a".toList, "b".toList]))
      = some ("$K".toList, (["a".toList, "b".toList]).flatten) :=
  claimC3_amended "#define".toList "$K".toList ["a".toList, "b".toList]
    (by decide) (by decide) (by decide) (by decide)

/-! ## Dict lemmas -/

/-- Looking up the key just inserted returns the new value. -/
lemma dictLookup_insert_self {κ α : Type} [DecidableEq κ] (d : List (κ × α)) (k : κ) (v : α) :
    dictLookup (dictInsert d k v) k = some v := by
  induction d with
  | nil => simp [dictInsert, dictLookup]
  | cons kv rest ih =>
    obtain ⟨k1, v1⟩ := kv
    by_cases h : k1 = k
    · subst h
      simp [dictInsert, dictLookup]
    · simp only [dictInsert, if_neg h, dictLookup]
      exact ih

/-- Inserting a different key does not change a lookup. -/
lemma dictLookup_insert_ne {κ α : Type} [DecidableEq κ] (d : List (κ × α)) (k k2 : κ) (v : α)
    (h : k2 ≠ k) : dictLookup (dictInsert d k v) k2 = dictLookup d k2 := by
  induction d with
  | nil =>
    simp only [dictInsert, dictLookup]
    rw [if_neg (fun e => h e.symm)]
  | cons kv rest ih =>
    obtain ⟨k1, v1⟩ := kv
    by_cases h1 : k1 = k
    · subst h1
      simp only [dictInsert, if_pos rfl, dictLookup]
      rw [if_neg (fun e => h e.symm), if_neg (fun e => h e.symm)]
    · simp only [dictInsert, if_neg h1, dictLookup]
      by_cases h2 : k1 = k2
      · rw [if_pos h2, if_pos h2]
      · rw [if_neg h2, if_neg h2, ih]

/-- The `lookupAttr` version of `dictLookup_insert_self`. -/
lemma lookupAttr_insert_self (d : AttrMap) (k : String) (v : PVal) :
    lookupAttr (dictInsert d k v) k = some v := dictLookup_insert_self d k v

/-- The `lookupAttr` version of `dictLookup_insert_ne`. -/
lemma lookupAttr_insert_ne (d : AttrMap) (k k2 : String) (v : PVal) (h : k2 ≠ k) :
    lookupAttr (dictInsert d k v) k2 = lookupAttr d k2 := dictLookup_insert_ne d k k2 v h

/-! ## sfz pipeline lemmas -/

/-- The encoding step of a region succeeds when the buffer is nonempty and,
for the compressed path, at least 32 samples long. -/
lemma encodeStep_ok (env : SfzEnv) (compress : Bool) (y : List ℚ) (sr : Nat) (sf : String)
    (hy : y ≠ []) (h32 : compress = true → 32 ≤ y.length) :
    ∃ af, (if compress then buffer2mp3b64 env.encodeMp3 y sr
           else Except.ok (env.readB64 sf, "wav")) = Except.ok af := by
  cases compress with
  | false => exact ⟨(env.readB64 sf, "wav"), rfl⟩
  | true =>
    have hie : y.isEmpty = false := by
      cases y with
      | nil => exact absurd rfl hy
      | cons a l => rfl
    have hlen : ¬ ((y.map fun a => a / listMax (y.map fun b => |b|)).length < 32) := by
      rw [List.length_map]
      have := h32 rfl
      omega
    cases hy2 : fadeIn32 (y.map fun a => a / listMax (y.map fun b => |b|)) with
    | none => exact absurd ((fadeIn32_none_iff _).1 hy2) hlen
    | some y2 =>
      refine ⟨(env.encodeMp3 (y2.map fun a => ratTrunc (a * 16384)) sr, "mp3"), ?_⟩
      simp [buffer2mp3b64, hie, hy2]

/-- Shape of a successful `processRegion`: the scope dicts, the success flag
and the load point are untouched, and the sample list is either unchanged
(missing file, silent skip) or extended by exactly one zone whose `sampleNo`
is the previous sample count. -/
lemma processRegion_ok (env : SfzEnv) (compress : Bool) (st : SfzState) (d0 : AttrMap)
    (st' : SfzState) (h : processRegion env compress st d0 = .ok st') :
    st'.globalDict = st.globalDict ∧ st'.masterDict = st.masterDict ∧
    st'.groupDict = st.groupDict ∧ st'.success = st.success ∧
    st'.samplesLoadPoint = st.samplesLoadPoint ∧
    (st' = st ∨ ∃ z, st'.samples = st.samples ++ [z] ∧
      lookupAttr z "sampleNo" = some (PVal.n st.samples.length)) := by
  simp only [processRegion] at h
  split at h
  · exact Except.noConfusion h
  · split at h
    · split at h
      · exact Except.noConfusion h
      · split at h
        · exact Except.noConfusion h
        · split at h
          · exact Except.noConfusion h
          · split at h
            · exact Except.noConfusion h
            · injection h with h2
              subst h2
              refine ⟨rfl, rfl, rfl, rfl, rfl, Or.inr ⟨_, rfl, ?_⟩⟩
              rw [lookupAttr_insert_ne _ _ _ _ (by decide),
                lookupAttr_insert_ne _ _ _ _ (by decide),
                lookupAttr_insert_ne _ _ _ _ (by decide),
                lookupAttr_insert_ne _ _ _ _ (by decide),
                lookupAttr_insert_ne _ _ _ _ (by decide),
                lookupAttr_insert_self]
    · injection h with h2
      subst h2
      exact ⟨rfl, rfl, rfl, rfl, rfl, Or.inl rfl⟩

/-- A successful section step keeps the success flag and either keeps the
sample list or appends one zone carrying the correct `sampleNo`. -/
lemma processSection_ok (env : SfzEnv) (compress : Bool) (st : SfzState)
    (sec : String × AttrMap) (st' : SfzState)
    (h : processSection env compress st sec = .ok st') :
    st'.success = st.success ∧
    (st'.samples = st.samples ∨ ∃ z, st'.samples = st.samples ++ [z] ∧
      lookupAttr z "sampleNo" = some (PVal.n st.samples.length)) := by
  simp only [processSection] at h
  split at h
  · rcases processRegion_ok env compress st sec.2 st' h with ⟨-, -, -, h4, -, h6⟩
    rcases h6 with rfl | ⟨z, hz1, hz2⟩
    · exact ⟨h4, Or.inl rfl⟩
    · exact ⟨h4, Or.inr ⟨z, hz1, hz2⟩⟩
  · split at h
    · injection h with h2
      subst h2
      exact ⟨rfl, Or.inl rfl⟩
    · split at h
      · injection h with h2
        subst h2
        exact ⟨rfl, Or.inl rfl⟩
      · split at h
        · injection h with h2
          subst h2
          exact ⟨rfl, Or.inl rfl⟩
        · split at h
          · injection h with h2
            subst h2
            simp only [controlStep]
            split
            · exact ⟨rfl, Or.inl rfl⟩
            · exact ⟨rfl, Or.inl rfl⟩
          · split at h
            · injection h with h2
              subst h2
              exact ⟨rfl, Or.inl rfl⟩
            · exact Except.noConfusion h

/-- The section loop distributes over list append. -/
lemma runSections_append (env : SfzEnv) (compress : Bool) (st : SfzState)
    (l1 l2 : List (String × AttrMap)) :
    runSections env compress st (l1 ++ l2) =
      match runSections env compress st l1 with
      | .error e => .error e
      | .ok st1 => runSections env compress st1 l2 := by
  induction l1 generalizing st with
  | nil => rfl
  | cons sec rest ih =>
    simp only [List.cons_append, runSections]
    cases hps : processSection env compress st sec with
    | error e => rfl
    | ok st1 => exact ih st1

/-- The sample-number invariant: every zone of the list records its own
position in `sampleNo`. -/
def sampleNosOK (l : List AttrMap) : Prop :=
  ∀ i z, l.get? i = some z → lookupAttr z "sampleNo" = some (PVal.n i)

/-- Indexing into a one-element extension. -/
lemma get?_append_single {α : Type} (l : List α) (z : α) (i : Nat) :
    (l ++ [z]).get? i =
      if i < l.length then l.get? i else if i = l.length then some z else none := by
  induction l generalizing i with
  | nil =>
    cases i with
    | zero => rfl
    | succ j =>
      have h1 : ¬ (j + 1 < ([] : List α).length) := by simp
      have h2 : ¬ (j + 1 = ([] : List α).length) := by simp
      rw [if_neg h1, if_neg h2]
      rfl
  | cons a rest ih =>
    cases i with
    | zero =>
      rw [if_pos (by simp)]
      rfl
    | succ j =>
      have hstep : ((a :: rest) ++ [z]).get? (j + 1) = (rest ++ [z]).get? j := rfl
      rw [hstep, ih j]
      by_cases h1 : j < rest.length
      · rw [if_pos h1, if_pos (by simp only [List.length_cons]; omega)]
        rfl
      · by_cases h2 : j = rest.length
        · rw [if_neg h1, if_pos h2, if_neg (by simp only [List.length_cons]; omega),
            if_pos (by simp only [List.length_cons]; omega)]
        · rw [if_neg h1, if_neg h2, if_neg (by simp only [List.length_cons]; omega),
            if_neg (by simp only [List.length_cons]; omega)]

/-- Appending a zone with the correct `sampleNo` preserves the invariant. -/
lemma sampleNosOK_append (l : List AttrMap) (z : AttrMap)
    (hl : sampleNosOK l) (hz : lookupAttr z "sampleNo" = some (PVal.n l.length)) :
    sampleNosOK (l ++ [z]) := by
  intro i z0 h0
  rw [get?_append_single] at h0
  by_cases h1 : i < l.length
  · rw [if_pos h1] at h0
    exact hl i z0 h0
  · by_cases h2 : i = l.length
    · rw [if_neg h1, if_pos h2] at h0
      injection h0 with he
      subst he
      subst h2
      exact hz
    · rw [if_neg h1, if_neg h2] at h0
      exact Option.noConfusion h0

/-- The section loop preserves the success flag and the `sampleNo`
invariant. -/
lemma runSections_inv (env : SfzEnv) (compress : Bool)
    (l : List (String × AttrMap)) (st st' : SfzState)
    (h : runSections env compress st l = .ok st') (hok : sampleNosOK st.samples) :
    st'.success = st.success ∧ sampleNosOK st'.samples := by
  induction l generalizing st with
  | nil =>
    injection h with h2
    subst h2
    exact ⟨rfl, hok⟩
  | cons sec rest ih =>
    simp only [runSections] at h
    cases hps : processSection env compress st sec with
    | error e =>
      rw [hps] at h
      exact Except.noConfusion h
    | ok st1 =>
      rw [hps] at h
      rcases processSection_ok env compress st sec st1 hps with ⟨hsu, hsm⟩
      have hok1 : sampleNosOK st1.samples := by
        rcases hsm with he | ⟨z, hz1, hz2⟩
        · rw [he]
          exact hok
        · rw [hz1]
          exact sampleNosOK_append _ _ hok hz2
      rcases ih st1 h hok1 with ⟨h1, h2⟩
      exact ⟨h1.trans hsu, h2⟩

/-- The gold step never touches the sample list, always reports the write, and
serializes the pre-comparison state. -/
lemma goldApply_shape (env : SfzEnv) (st : SfzState) :
    (goldApply env st).st.samples = st.samples ∧ (goldApply env st).written = true ∧
    (goldApply env st).freshSerial = env.serialize st := by
  simp only [goldApply]
  cases env.gold with
  | none => exact ⟨rfl, rfl, rfl⟩
  | some g =>
    dsimp only
    by_cases hq : g ≠ env.serialize st
    · rw [if_pos hq]
      exact ⟨rfl, rfl, rfl⟩
    · rw [if_neg hq]
      exact ⟨rfl, rfl, rfl⟩

/-- Every fresh result of `sfz2soundJson` comes from a section-loop state
with `success = true` and position-correct sample numbers, post-processed by
`goldApply`. -/
lemma sfz2soundJson_fresh_inv (inc : IncOracle) (env : SfzEnv) (compress : Bool)
    (tbl : ReplaceDict) (out : SfzOut) (tbl' : ReplaceDict)
    (h : sfz2soundJson inc env compress tbl = .ok (.fresh out, tbl')) :
    ∃ st, out = goldApply env st ∧ st.success = true ∧ sampleNosOK st.samples := by
  simp only [sfz2soundJson] at h
  split at h
  · simp at h
  · split at h
    · simp at h
    · split at h
      · exact Except.noConfusion h
      · split at h
        · exact Except.noConfusion h
        · rename_i st hrun
          injection h with h2
          have h3 : SfzRet.fresh (goldApply env st) = SfzRet.fresh out := congrArg Prod.fst h2
          injection h3 with h4
          have hinit : sampleNosOK (sfzInit env).samples := by
            intro i z h0
            exact Option.noConfusion h0
          rcases runSections_inv env compress _ _ _ hrun hinit with ⟨hsu, hsm⟩
          exact ⟨st, h4.symm, hsu, hsm⟩

/-! ## Claim C5 -/

/-- Claim C5 (confirmed): on a fresh text-format conversion with a gold file
present, the output is written unconditionally (the write precedes the
comparison), and the returned patch's `success` is `false` exactly when the
gold text differs from the fresh serialization, `true` when they agree. -/
theorem claimC5 (inc : IncOracle) (env : SfzEnv) (compress : Bool) (tbl : ReplaceDict)
    (out : SfzOut) (tbl' : ReplaceDict) (g : String)
    (hrun : sfz2soundJson inc env compress tbl = .ok (.fresh out, tbl'))
    (hg : env.gold = some g) :
    out.written = true ∧
      (g ≠ out.freshSerial → out.st.success = false) ∧
      (g = out.freshSerial → out.st.success = true) := by
  obtain ⟨st, hout, hsucc, -⟩ := sfz2soundJson_fresh_inv inc env compress tbl out tbl' hrun
  subst hout
  simp only [goldApply, hg]
  by_cases hgf : g = env.serialize st
  · rw [if_neg (not_not_intro hgf)]
    refine ⟨rfl, fun hne => absurd hgf hne, fun _ => hsucc⟩
  · rw [if_pos hgf]
    exact ⟨rfl, fun _ => rfl, fun he => absurd he hgf⟩

/-- The C5 witness scenario: a fresh conversion with a gold file equal to the
fresh serialization. -/
def envW5 : SfzEnv :=
  { filename := "g.sfz", outExists := false, cachedText := "", srcText := some "x".toList,
    evalStr := id, parse := fun _ => [], fileExists := fun _ => false, load := fun _ => ([], 0),
    readB64 := fun _ => "", encodeMp3 := fun _ _ => "", noteToMidi := fun _ => none,
    gold := some "SER", serialize := fun _ => "SER" }

/-- The fresh output of the C5 witness run. -/
def w5out : SfzOut :=
  match sfz2soundJson inc0 envW5 false [] with
  | .ok (.fresh o, _) => o
  | _ => { st := sfzInit envW5, written := false, freshSerial := "" }

/-- Witness for C5: the gold file matches, the output was written and
`success` stayed `true`. -/
theorem claimC5_witness : w5out.written = true ∧ w5out.st.success = true := by
  have h := claimC5 inc0 envW5 false [] w5out [] "SER" rfl rfl
  exact ⟨h.1, h.2.2 rfl⟩

/-! ## Claim C7 -/

/-- Claim C7 (amended, proved): whenever a region step appends a zone, the
recorded `gain` is `0.7` divided by `np.max` of the decoded buffer — the
signed maximum, with no absolute value. -/
theorem claimC7_amended (env : SfzEnv) (compress : Bool) (st : SfzState) (d0 : AttrMap)
    (st' : SfzState) (z : AttrMap)
    (h : processRegion env compress st d0 = .ok st')
    (hz : st'.samples = st.samples ++ [z]) :
    lookupAttr z "gain" = some (PVal.q ((7 : ℚ) / 10 /
      listMax (env.load (pathJoinS st.samplesLoadPoint
        (pvalStr ((lookupAttr (inheritApply st.globalDict st.masterDict st.groupDict d0)
          "sample").getD (PVal.s ""))))).1)) := by
  simp only [processRegion] at h
  split at h
  · exact Except.noConfusion h
  · rename_i sv hsv
    split at h
    · split at h
      · exact Except.noConfusion h
      · split at h
        · exact Except.noConfusion h
        · split at h
          · exact Except.noConfusion h
          · split at h
            · exact Except.noConfusion h
            · injection h with h2
              subst h2
              simp only [hsv, Option.getD_some]
              have hzz := hz
              simp only [] at hzz
              have hcan := List.append_cancel_left hzz
              injection hcan with hzc
              subst hzc
              rw [lookupAttr_insert_ne _ _ _ _ (by decide),
                lookupAttr_insert_ne _ _ _ _ (by decide),
                lookupAttr_insert_ne _ _ _ _ (by decide),
                lookupAttr_insert_ne _ _ _ _ (by decide),
                lookupAttr_insert_ne _ _ _ _ (by decide),
                lookupAttr_insert_ne _ _ _ _ (by decide),
                lookupAttr_insert_self]
    · injection h with h2
      subst h2
      have hlen := congrArg List.length hz
      rw [List.length_append] at hlen
      simp at hlen

/-- The region dict of the C6/C7 witness scenarios. -/
def dW6 : AttrMap := [("sample", PVal.s "kick.wav"), ("pitch_keycenter", PVal.s "60")]

/-- A one-region sfz environment whose decoded buffer is `[1/2]`. -/
def envW6 : SfzEnv :=
  { filename := "w.sfz", outExists := false, cachedText := "",
    srcText := some "x".toList, evalStr := id,
    parse := fun _ => [("region", dW6)],
    fileExists := fun _ => true, load := fun _ => ([(1 : ℚ) / 2], 44100),
    readB64 := fun _ => "QQ==", encodeMp3 := fun _ _ => "",
    noteToMidi := fun _ => none, gold := none, serialize := fun _ => "" }

/-- The C7 counterexample environment: the decoded buffer `[-9/10, 1/2]` has
its absolute peak on the negative side. -/
def envC7 : SfzEnv :=
  { envW6 with load := fun _ => ([-(9 : ℚ) / 10, 1 / 2], 8000) }

/-- The `gain` value the region step records for the C7 counterexample. -/
def c7gain : Option PVal :=
  match processRegion envC7 false (sfzInit envC7) dW6 with
  | .ok st => lookupAttr (st.samples.headD []) "gain"
  | .error _ => none

/-- Claim C7 (refuted at this input): on the buffer `[-9/10, 1/2]` the code
records `gain = 0.7 / np.max(y) = 7/5`, while the claim's formula
`0.7 / max(|y|)` gives `7/9`; the two differ. -/
theorem claimC7_counterexample :
    c7gain = some (PVal.q ((7 : ℚ) / 10 / listMax [-(9 : ℚ) / 10, 1 / 2])) ∧
      (7 : ℚ) / 10 / listMax [-(9 : ℚ) / 10, 1 / 2] = 7 / 5 ∧
      (7 : ℚ) / 10 / listMax ([-(9 : ℚ) / 10, 1 / 2].map (fun a => |a|)) = 7 / 9 ∧
      (7 : ℚ) / 5 ≠ 7 / 9 := by
  have habs1 : |(-(9 : ℚ) / 10)| = 9 / 10 := by
    rw [abs_of_nonpos (by norm_num)]
    norm_num
  have habs2 : |(1 : ℚ) / 2| = 1 / 2 := abs_of_nonneg (by norm_num)
  refine ⟨rfl, ?_, ?_, by norm_num⟩
  · have hm : listMax [-(9 : ℚ) / 10, 1 / 2] = 1 / 2 := by
      show max (-(9 : ℚ) / 10) (1 / 2) = 1 / 2
      exact max_eq_right (by norm_num)
    rw [hm]
    norm_num
  · have hm : listMax ([-(9 : ℚ) / 10, 1 / 2].map (fun a => |a|)) = 9 / 10 := by
      show max |(-(9 : ℚ) / 10)| |(1 : ℚ) / 2| = 9 / 10
      rw [habs1, habs2]
      exact max_eq_left (by norm_num)
    rw [hm]
    norm_num

/-- The final state of the C7/C6 witness region run. -/
def w7st : SfzState :=
  match processRegion envW6 false (sfzInit envW6) dW6 with
  | .ok st => st
  | .error _ => sfzInit envW6

/-- The zone appended by the C7 witness region run. -/
def w7zone : AttrMap := w7st.samples.headD []

/-- Witness for the amended C7: the zone recorded for the buffer `[1/2]`
carries `gain = 0.7 / max([1/2])`. -/
theorem claimC7_amended_witness :
    lookupAttr w7zone "gain" = some (PVal.q ((7 : ℚ) / 10 /
      listMax (envW6.load (pathJoinS (sfzInit envW6).samplesLoadPoint
        (pvalStr ((lookupAttr (inheritApply (sfzInit envW6).globalDict
          (sfzInit envW6).masterDict (sfzInit envW6).groupDict dW6)
          "sample").getD (PVal.s ""))))).1)) :=
  claimC7_amended envW6 false (sfzInit envW6) dW6 w7st w7zone rfl rfl

/-! ## Claim C10 -/

/-- Claim C10 (confirmed): if the section stream of a fresh conversion
contains a region whose merged attributes lack `pitch_keycenter`, while its
sample file exists, decodes to a nonempty buffer and encodes successfully (so
that nothing fails earlier), then the whole text-format conversion raises the
uncaught `KeyError` — the region is not skipped and, since `toFile` is only
reached on success, no output file is written. -/
theorem claimC10 (inc : IncOracle) (env : SfzEnv) (compress : Bool) (tbl : ReplaceDict)
    (txt pp : List Char) (tbl2 : ReplaceDict)
    (pre post : List (String × AttrMap)) (d0 : AttrMap) (st : SfzState) (sv : PVal)
    (h0 : env.outExists = false)
    (h1 : env.srcText = some txt)
    (h2 : preprocessLines inc env (pySplit '\n' txt) tbl [] = .ok (pp, tbl2))
    (h3 : env.parse pp = pre ++ ("region", d0) :: post)
    (h4 : runSections env compress (sfzInit env) pre = .ok st)
    (h5 : lookupAttr (inheritApply st.globalDict st.masterDict st.groupDict d0) "sample"
      = some sv)
    (h6 : env.fileExists (pathJoinS st.samplesLoadPoint (pvalStr sv)) = true)
    (h7 : (env.load (pathJoinS st.samplesLoadPoint (pvalStr sv))).1 ≠ [])
    (h8 : compress = true → 32 ≤ (env.load (pathJoinS st.samplesLoadPoint (pvalStr sv))).1.length)
    (h9 : lookupAttr (inheritApply st.globalDict st.masterDict st.groupDict d0)
      "pitch_keycenter" = none) :
    ∃ e, sfz2soundJson inc env compress tbl = .error e := by
  have hie : (env.load (pathJoinS st.samplesLoadPoint (pvalStr sv))).1.isEmpty = false := by
    cases hcase : (env.load (pathJoinS st.samplesLoadPoint (pvalStr sv))).1 with
    | nil => exact absurd hcase h7
    | cons a l => rfl
  obtain ⟨af, haf⟩ := encodeStep_ok env compress
    ((env.load (pathJoinS st.samplesLoadPoint (pvalStr sv))).1)
    ((env.load (pathJoinS st.samplesLoadPoint (pvalStr sv))).2)
    (pathJoinS st.samplesLoadPoint (pvalStr sv)) h7 h8
  have hreg : processRegion env compress st d0 = .error "KeyError: pitch_keycenter" := by
    simp only [processRegion, h5, h6, hie, haf, Bool.false_eq_true, if_false, if_true,
      eq_self_iff_true]
    rw [lookupAttr_insert_ne _ _ _ _ (by decide),
      lookupAttr_insert_ne _ _ _ _ (by decide),
      lookupAttr_insert_ne _ _ _ _ (by decide),
      lookupAttr_insert_ne _ _ _ _ (by decide),
      lookupAttr_insert_ne _ _ _ _ (by decide),
      lookupAttr_insert_ne _ _ _ _ (by decide),
      lookupAttr_insert_ne _ _ _ _ (by decide),
      h9]
  have hsec : runSections env compress (sfzInit env) (env.parse pp)
      = .error "KeyError: pitch_keycenter" := by
    rw [h3, runSections_append, h4]
    show runSections env compress st (("region", d0) :: post) = _
    simp only [runSections, processSection, eq_self_iff_true, if_true, hreg]
  refine ⟨"KeyError: pitch_keycenter", ?_⟩
  simp only [sfz2soundJson, h0, Bool.false_eq_true, if_false, h1, h2, hsec]

/-- The C10 witness scenario: one region whose dict has a `sample` but no
`pitch_keycenter`, with an existing, decodable sample file. -/
def envW10 : SfzEnv :=
  { filename := "m.sfz", outExists := false, cachedText := "", srcText := some "x".toList,
    evalStr := id, parse := fun _ => [("region", [("sample", PVal.s "kick.wav")])],
    fileExists := fun _ => true, load := fun _ => ([(1 : ℚ) / 2], 8000),
    readB64 := fun _ => "", encodeMp3 := fun _ _ => "", noteToMidi := fun _ => none,
    gold := none, serialize := fun _ => "" }

/-- Whether an `Except` result is an error. -/
def isErr {α : Type} (r : Except String α) : Bool :=
  match r with
  | .error _ => true
  | .ok _ => false

/-- Witness for C10: the concrete conversion raises instead of returning. -/
theorem claimC10_witness : isErr (sfz2soundJson inc0 envW10 false []) = true := by
  obtain ⟨e, he⟩ := claimC10 inc0 envW10 false [] "x".toList "x\n".toList [] [] []
    [("sample", PVal.s "kick.wav")] (sfzInit envW10) (PVal.s "kick.wav")
    rfl rfl rfl rfl rfl rfl rfl (List.cons_ne_nil _ _) (fun hc => Bool.noConfusion hc) rfl
  rw [he]
  rfl

/-! ## sf2 pipeline lemmas -/

/-- The zone-number invariant for sf2 patches. -/
def zoneNosOK (l : List Sf2Zone) : Prop :=
  ∀ i z, l.get? i = some z → z.sampleNo = i

/-- Appending a zone numbered with the current length preserves the
invariant. -/
lemma zoneNosOK_append (l : List Sf2Zone) (z : Sf2Zone)
    (hl : zoneNosOK l) (hz : z.sampleNo = l.length) : zoneNosOK (l ++ [z]) := by
  intro i z0 h0
  rw [get?_append_single] at h0
  by_cases h1 : i < l.length
  · rw [if_pos h1] at h0
    exact hl i z0 h0
  · by_cases h2 : i = l.length
    · rw [if_neg h1, if_pos h2] at h0
      injection h0 with he
      subst he
      rw [hz, h2]
    · rw [if_neg h1, if_neg h2] at h0
      exact Option.noConfusion h0

/-- Shape of a successful `processSf2Sample`: the `percussion` and `loop`
flags are untouched, the percussion index moves only when the percussion
branch fires, and exactly one zone is appended, numbered with the previous
count and without loop metadata when the patch's loop flag is clear. -/
lemma processSf2Sample_ok (env : Sf2Env) (compress : Bool) (sample : Sf2Sample)
    (bag : Sf2Bag) (p p' : Sf2Patch)
    (h : processSf2Sample env compress sample bag p = .ok p') :
    p'.percussion = p.percussion ∧ p'.loop = p.loop ∧
    (p.percussion = 0 → p'.percussiveSampleIndex = p.percussiveSampleIndex) ∧
    ∃ z, p'.samples = p.samples ++ [z] ∧ z.sampleNo = p.samples.length ∧
      (p.loop = 0 → z.loopMeta = none) := by
  simp only [processSf2Sample] at h
  split at h
  · exact Except.noConfusion h
  · split at h
    · exact Except.noConfusion h
    · injection h with h2
      subst h2
      refine ⟨?_, ?_, ?_, ?_⟩
      · split <;> rfl
      · split <;> rfl
      · intro h0
        rw [if_neg (not_not_intro h0)]
      · split
        · rename_i hperc
          split
          · rename_i hloop
            split
            · exact ⟨_, rfl, rfl, fun h0 => absurd h0 hloop.2⟩
            · rename_i hli
              exact absurd hloop.1 (by rw [hli]; simp)
          · exact ⟨_, rfl, rfl, fun _ => rfl⟩
        · rename_i hperc
          split
          · rename_i hloop
            split
            · exact ⟨_, rfl, rfl, fun h0 => absurd h0 hloop.2⟩
            · rename_i hli
              exact absurd hloop.1 (by rw [hli]; simp)
          · exact ⟨_, rfl, rfl, fun _ => rfl⟩

/-- The bag loop preserves the flags, keeps the percussion index where the
percussion flag is clear, and maintains the zone-number and no-loop-metadata
invariants. -/
lemma processBags_inv (env : Sf2Env) (compress : Bool) (bags : List Sf2Bag)
    (p p' : Sf2Patch) (h : processBags env compress p bags = .ok p') :
    p'.percussion = p.percussion ∧ p'.loop = p.loop ∧
    (p.percussion = 0 → p'.percussiveSampleIndex = p.percussiveSampleIndex) ∧
    ((p.percussion = 0 ∧ p.loop = 0 ∧ zoneNosOK p.samples ∧
        (∀ z ∈ p.samples, z.loopMeta = none)) →
      zoneNosOK p'.samples ∧ ∀ z ∈ p'.samples, z.loopMeta = none) := by
  induction bags generalizing p with
  | nil =>
    injection h with h2
    subst h2
    exact ⟨rfl, rfl, fun _ => rfl, fun hh => ⟨hh.2.2.1, hh.2.2.2⟩⟩
  | cons bag rest ih =>
    simp only [processBags] at h
    split at h
    · rcases ih p h with ⟨h1, h2, h3, h4⟩
      exact ⟨h1, h2, h3, h4⟩
    · rename_i s hs
      split at h
      · exact Except.noConfusion h
      · rename_i p1 hp1
        rcases processSf2Sample_ok env compress s bag p p1 hp1 with
          ⟨hs1, hs2, hs3, z, hz1, hz2, hz3⟩
        rcases ih p1 h with ⟨h1, h2, h3, h4⟩
        refine ⟨h1.trans hs1, h2.trans hs2, ?_, ?_⟩
        · intro h0
          have h0' : p1.percussion = 0 := hs1.trans h0
          exact (h3 h0').trans (hs3 h0)
        · rintro ⟨hq1, hq2, hq3, hq4⟩
          have hp1q1 : p1.percussion = 0 := hs1.trans hq1
          have hp1q2 : p1.loop = 0 := hs2.trans hq2
          have hp1q3 : zoneNosOK p1.samples := by
            rw [hz1]
            exact zoneNosOK_append _ _ hq3 hz2
          have hp1q4 : ∀ z0 ∈ p1.samples, z0.loopMeta = none := by
            intro z0 hz0
            rw [hz1] at hz0
            rcases List.mem_append.1 hz0 with hm | hm
            · exact hq4 z0 hm
            · rw [List.mem_singleton.1 hm]
              exact hz3 hq2
          exact h4 ⟨hp1q1, hp1q2, hp1q3, hp1q4⟩

/-- Invariants of one converted instrument: the hard-coded flags survive the
bag loop, the percussion counter never moves, the zones are numbered by
position, and no zone carries loop metadata. -/
lemma processInstrument_inv (env : Sf2Env) (compress : Bool) (inst : Sf2Inst)
    (u : String) (p : Sf2Patch) (h : processInstrument env compress inst u = .ok p) :
    p.percussion = 0 ∧ p.loop = 0 ∧ p.percussiveSampleIndex = 45 ∧
    zoneNosOK p.samples ∧ ∀ z ∈ p.samples, z.loopMeta = none := by
  simp only [processInstrument] at h
  split at h
  · exact Except.noConfusion h
  · rename_i pb hpb
    injection h with h2
    subst h2
    rcases processBags_inv env compress inst.bags _ pb hpb with ⟨h1, h2, h3, h4⟩
    have hzero : ∀ i z, ([] : List Sf2Zone).get? i = some z → z.sampleNo = i := by
      intro i z h0
      exact Option.noConfusion h0
    rcases h4 ⟨rfl, rfl, hzero, by intro z hz; cases hz⟩ with ⟨h5, h6⟩
    exact ⟨h1, h2, h3 rfl, h5, h6⟩

/-! ## Claim C6 -/

/-- Claim C6 (confirmed): in both pipelines, every sample zone's `sampleNo`
equals its position, so the values form the contiguous sequence `0..N-1`:
for any fresh sfz conversion the zone dict at index `i` holds
`sampleNo = i`, and for any converted sf2 instrument the zone at index `i`
has `sampleNo = i`. -/
theorem claimC6 :
    (∀ (inc : IncOracle) (env : SfzEnv) (compress : Bool) (tbl : ReplaceDict)
        (out : SfzOut) (tbl' : ReplaceDict),
      sfz2soundJson inc env compress tbl = .ok (.fresh out, tbl') →
      ∀ i z, out.st.samples.get? i = some z →
        lookupAttr z "sampleNo" = some (PVal.n i)) ∧
    (∀ (env : Sf2Env) (compress : Bool) (inst : Sf2Inst) (u : String) (p : Sf2Patch),
      processInstrument env compress inst u = .ok p →
      ∀ i z, p.samples.get? i = some z → z.sampleNo = i) := by
  constructor
  · intro inc env compress tbl out tbl' h i z hz
    obtain ⟨st, hout, -, hnos⟩ := sfz2soundJson_fresh_inv inc env compress tbl out tbl' h
    subst hout
    rcases goldApply_shape env st with ⟨hsam, -, -⟩
    rw [hsam] at hz
    exact hnos i z hz
  · intro env compress inst u p h i z hz
    exact (processInstrument_inv env compress inst u p h).2.2.2.1 i z hz

/-- The fresh output of the C6 sfz witness run (one appended region). -/
def w6out : SfzOut :=
  match sfz2soundJson inc0 envW6 false [] with
  | .ok (.fresh o, _) => o
  | _ => { st := sfzInit envW6, written := false, freshSerial := "" }

/-- A placeholder zone for `headD` (never selected by the witnesses). -/
def sf2ZoneDefault : Sf2Zone :=
  { sampleNo := 99, channels := 0, sample_rate := 0, sample := "", lengthSamples := 0,
    audioFormat := "", audioData := "", pitch_keycenter := 0, gain := 0,
    loopMeta := none, samplesLoadPoint := "x" }

/-- A placeholder patch for extraction defaults (never selected by the
witnesses). -/
def sf2PatchDefault : Sf2Patch :=
  { source := "", displayName := "", name := "", percussion := 1,
    percussiveSampleIndex := 0, loop := 1, success := false, path := [],
    samples := [], outFilename := "" }

/-- A 32-sample sf2 sample header for the witnesses. -/
def sampW6 : Sf2Sample :=
  { name := "s", raw := List.replicate 32 1, sample_rate := 8000,
    original_pitch := some 60, loopInfo := none }

/-- A one-bag instrument for the witnesses. -/
def instW6 : Sf2Inst := { name := "I", bags := [{ sample := some sampW6, base_note := none }] }

/-- The sf2 environment of the C6/C8 witnesses. -/
def envW6sf2 : Sf2Env :=
  { inFilename := "w.sf2", force := false, existingJsons := [], cachedPatches := [],
    instruments := [instW6], encodeMp3 := fun _ _ => "", encodeWav := fun _ _ => "" }

/-- The patch produced for `instW6`. -/
def w6patch : Sf2Patch :=
  match processInstrument envW6sf2 false instW6 "I" with
  | .ok p => p
  | .error _ => sf2PatchDefault

/-- Witness for C6: in both pipelines the first recorded zone carries
`sampleNo = 0`. -/
theorem claimC6_witness :
    lookupAttr (w6out.st.samples.headD []) "sampleNo" = some (PVal.n 0) ∧
      (w6patch.samples.headD sf2ZoneDefault).sampleNo = 0 := by
  constructor
  · exact claimC6.1 inc0 envW6 false [] w6out [] rfl 0 (w6out.st.samples.headD []) rfl
  · exact claimC6.2 envW6sf2 false instW6 "I" w6patch rfl 0
      (w6patch.samples.headD sf2ZoneDefault) rfl

/-! ## Claim C8 -/

/-- An element of `dictInsert d k v` is an element of `d` or the new pair. -/
lemma dictInsert_mem {κ α : Type} [DecidableEq κ] (d : List (κ × α)) (k : κ) (v : α)
    (e : κ × α) (he : e ∈ dictInsert d k v) : e ∈ d ∨ e = (k, v) := by
  induction d with
  | nil => exact Or.inr (List.mem_singleton.1 (by simpa [dictInsert] using he))
  | cons kv rest ih =>
    obtain ⟨k1, v1⟩ := kv
    by_cases h : k1 = k
    · subst h
      simp only [dictInsert, if_pos rfl] at he
      rcases List.mem_cons.1 he with h1 | h1
      · exact Or.inr h1
      · exact Or.inl (List.mem_cons_of_mem _ h1)
    · simp only [dictInsert, if_neg h] at he
      rcases List.mem_cons.1 he with h1 | h1
      · exact Or.inl (h1 ▸ List.mem_cons_self _ _)
      · rcases ih h1 with h2 | h2
        · exact Or.inl (List.mem_cons_of_mem _ h2)
        · exact Or.inr h2

/-- An element of the merged patches dict comes from the initial dict or
from the inserted pairs. -/
lemma foldl_dictInsert_mem {κ α : Type} [DecidableEq κ] (kvs : List (κ × α))
    (d : List (κ × α)) (e : κ × α)
    (he : e ∈ kvs.foldl (fun acc kv => dictInsert acc kv.1 kv.2) d) : e ∈ d ∨ e ∈ kvs := by
  induction kvs generalizing d with
  | nil => exact Or.inl he
  | cons kv rest ih =>
    simp only [List.foldl_cons] at he
    rcases ih (dictInsert d kv.1 kv.2) he with h1 | h1
    · rcases dictInsert_mem d kv.1 kv.2 e h1 with h2 | h2
      · exact Or.inl h2
      · right
        rw [h2]
        exact List.mem_cons_self _ _
    · exact Or.inr (List.mem_cons_of_mem _ h1)

/-- Every entry of a successful `processAll` run is a successfully converted
instrument of the input list. -/
lemma processAll_mem (env : Sf2Env) (compress : Bool) (l : List (Sf2Inst × String))
    (res : List (String × Sf2Patch)) (h : processAll env compress l = .ok res)
    (kp : String × Sf2Patch) (hkp : kp ∈ res) :
    ∃ iu, iu ∈ l ∧ processInstrument env compress iu.1 iu.2 = .ok kp.2 := by
  induction l generalizing res with
  | nil =>
    injection h with h2
    subst h2
    cases hkp
  | cons iu rest ih =>
    simp only [processAll] at h
    split at h
    · exact Except.noConfusion h
    · rename_i p hp
      split at h
      · exact Except.noConfusion h
      · rename_i r hr
        injection h with h2
        subst h2
        rcases List.mem_cons.1 hkp with h3 | h3
        · refine ⟨iu, List.mem_cons_self _ _, ?_⟩
          rw [h3]
          exact hp
        · obtain ⟨iu2, hiu2, hiu3⟩ := ih r hr h3
          exact ⟨iu2, List.mem_cons_of_mem _ hiu2, hiu3⟩

/-- Claim C8 (confirmed): every patch the sf2 pipeline computes has
`percussion = 0` and `loop = 0` (they are hard-coded and no caller sets
them), the percussion counter still at its initial 45 (the re-keying branch
never ran), and no zone with loop metadata (the loop branch never ran). -/
theorem claimC8 (env : Sf2Env) (compress : Bool) (l : List (String × Sf2Patch))
    (h : sf22soundJson env compress = .ok (.computed l)) :
    ∀ kp ∈ l, kp.2.percussion = 0 ∧ kp.2.loop = 0 ∧ kp.2.percussiveSampleIndex = 45 ∧
      ∀ z ∈ kp.2.samples, z.loopMeta = none := by
  intro kp hkp
  simp only [sf22soundJson] at h
  split at h
  · simp at h
  · split at h
    · injection h with h2
      injection h2 with h3
      subst h3
      cases hkp
    · split at h
      · exact Except.noConfusion h
      · rename_i kvs hkvs
        injection h with h2
        injection h2 with h3
        subst h3
        rcases foldl_dictInsert_mem kvs [] kp hkp with h4 | h4
        · cases h4
        · obtain ⟨iu, -, hinst⟩ := processAll_mem env compress _ kvs hkvs kp h4
          rcases processInstrument_inv env compress iu.1 iu.2 kp.2 hinst with
            ⟨i1, i2, i3, -, i5⟩
          exact ⟨i1, i2, i3, i5⟩

/-- The head-with-default of a nonempty list is a member. -/
lemma headD_mem {α : Type} (l : List α) (d : α) (h : l ≠ []) : l.headD d ∈ l := by
  cases l with
  | nil => exact absurd rfl h
  | cons a rest => exact List.mem_cons_self _ _

/-- An instrument named `Piano` with no bags. -/
def pianoInst : Sf2Inst := { name := "Piano", bags := [] }

/-- The C2/C8 counterexample container: two instruments sharing one name. -/
def envC2 : Sf2Env :=
  { inFilename := "a.sf2", force := false, existingJsons := [], cachedPatches := [],
    instruments := [pianoInst, pianoInst],
    encodeMp3 := fun _ _ => "", encodeWav := fun _ _ => "" }

/-- The freshly computed patch mapping of an sf2 conversion result. -/
def computedPatches : Except String Sf2Ret → List (String × Sf2Patch)
  | .ok (.computed l) => l
  | _ => []

/-- Witness for C8: the first patch of the concrete two-`Piano` conversion
has clear flags and the untouched percussion counter. -/
theorem claimC8_witness :
    ((computedPatches (sf22soundJson envC2 false)).headD ("", sf2PatchDefault)).2.percussion = 0 ∧
    ((computedPatches (sf22soundJson envC2 false)).headD ("", sf2PatchDefault)).2.loop = 0 ∧
    ((computedPatches (sf22soundJson envC2 false)).headD
      ("", sf2PatchDefault)).2.percussiveSampleIndex = 45 := by
  have h := claimC8 envC2 false (computedPatches (sf22soundJson envC2 false)) rfl
    ((computedPatches (sf22soundJson envC2 false)).headD ("", sf2PatchDefault))
    (headD_mem _ _ (List.cons_ne_nil _ _))
  exact ⟨h.1, h.2.1, h.2.2.1⟩

/-! ## Claim C2 -/

/-- Claim C2 (refuted at this input): a container with two instruments both
named `Piano` yields a returned mapping with one entry (the primary keys
collide), not the two entries the claim's count predicts. -/
theorem claimC2_counterexample :
    (computedPatches (sf22soundJson envC2 false)).length = 1 ∧
      ((envC2.instruments.map Sf2Inst.name).filter (fun nm => nm ≠ "EOI")).length = 2 ∧
      (1 : Nat) ≠ 2 := by
  refine ⟨rfl, rfl, by decide⟩

/-- Keys after a dict insert: unchanged when the key is present, appended
otherwise. -/
lemma dictInsert_keys {κ α : Type} [DecidableEq κ] (d : List (κ × α)) (k : κ) (v : α) :
    (dictInsert d k v).map Prod.fst =
      if k ∈ d.map Prod.fst then d.map Prod.fst else d.map Prod.fst ++ [k] := by
  induction d with
  | nil => simp [dictInsert]
  | cons kv rest ih =>
    obtain ⟨k1, v1⟩ := kv
    by_cases h : k1 = k
    · subst h
      simp [dictInsert, List.mem_cons]
    · simp only [dictInsert, if_neg h, List.map_cons, ih]
      by_cases hm : k ∈ rest.map Prod.fst
      · rw [if_pos hm, if_pos (List.mem_cons_of_mem _ hm)]
      · have hc : ¬ (k ∈ k1 :: rest.map Prod.fst) := by
          simp only [List.mem_cons]
          rintro (he | hm2)
          · exact h he.symm
          · exact hm hm2
        rw [if_neg hm, if_neg hc]
        rfl

/-- Folding dict inserts keeps the key list duplicate-free and makes its key
set the union of the old keys and the inserted keys. -/
lemma foldl_dictInsert_keys {κ α : Type} [DecidableEq κ] (kvs : List (κ × α))
    (d : List (κ × α)) (hd : (d.map Prod.fst).Nodup) :
    ((kvs.foldl (fun acc kv => dictInsert acc kv.1 kv.2) d).map Prod.fst).Nodup ∧
    ((kvs.foldl (fun acc kv => dictInsert acc kv.1 kv.2) d).map Prod.fst).toFinset =
      (d.map Prod.fst).toFinset ∪ (kvs.map Prod.fst).toFinset := by
  induction kvs generalizing d with
  | nil =>
    refine ⟨hd, ?_⟩
    simp
  | cons kv rest ih =>
    simp only [List.foldl_cons]
    have hkeys := dictInsert_keys d kv.1 kv.2
    have hnd : ((dictInsert d kv.1 kv.2).map Prod.fst).Nodup := by
      rw [hkeys]
      by_cases hm : kv.1 ∈ d.map Prod.fst
      · rw [if_pos hm]
        exact hd
      · rw [if_neg hm]
        rw [List.nodup_append]
        exact ⟨hd, List.nodup_singleton _, by simpa using hm⟩
    have htf : ((dictInsert d kv.1 kv.2).map Prod.fst).toFinset =
        insert kv.1 (d.map Prod.fst).toFinset := by
      rw [hkeys]
      by_cases hm : kv.1 ∈ d.map Prod.fst
      · rw [if_pos hm]
        exact (Finset.insert_eq_self.2 (List.mem_toFinset.2 hm)).symm
      · rw [if_neg hm]
        ext x
        simp [or_comm]
    rcases ih (dictInsert d kv.1 kv.2) hnd with ⟨h1, h2⟩
    refine ⟨h1, ?_⟩
    rw [h2, htf]
    ext x
    simp only [Finset.mem_union, Finset.mem_insert, List.map_cons, List.toFinset_cons,
      List.mem_toFinset]
    tauto

/-- The `toFinset` of a mapped list is the image of the `toFinset`. -/
lemma list_toFinset_map {α β : Type} [DecidableEq α] [DecidableEq β] (l : List α) (f : α → β) :
    (l.map f).toFinset = l.toFinset.image f := by
  induction l with
  | nil => simp
  | cons a rest ih => simp [ih]

/-- String append acts on the underlying character lists. -/
lemma string_data_append (a b : String) : (a ++ b).data = a.data ++ b.data := rfl

/-- Appending a fixed prefix to a string is injective. -/
lemma key_append_inj (f a b : String) (h : f ++ a = f ++ b) : a = b := by
  have h2 := congrArg String.data h
  rw [string_data_append, string_data_append] at h2
  have h3 := List.append_cancel_left h2
  cases a with
  | mk da =>
    cases b with
    | mk db => exact congrArg String.mk h3

/-- The collected instruments are exactly the non-`EOI` ones, in order. -/
lemma sf2CollectGo_names (insts : List Sf2Inst) (counts : List (String × Nat)) :
    (sf2CollectGo counts insts).map (fun iu => iu.1.name) =
      (insts.map Sf2Inst.name).filter (fun nm => nm ≠ "EOI") := by
  induction insts generalizing counts with
  | nil => rfl
  | cons inst rest ih =>
    by_cases h : inst.name = "EOI"
    · simp only [sf2CollectGo, if_pos h, List.map_cons, List.filter_cons]
      rw [ih]
      simp [h]
    · simp only [sf2CollectGo, if_neg h, List.map_cons, List.filter_cons]
      rw [ih]
      simp [h]

/-- The keys produced by `processAll` are the prefixed instrument names, in
order. -/
lemma processAll_keys (env : Sf2Env) (compress : Bool) (l : List (Sf2Inst × String))
    (res : List (String × Sf2Patch)) (h : processAll env compress l = .ok res) :
    res.map Prod.fst = l.map (fun iu => env.inFilename ++ "_" ++ iu.1.name) := by
  induction l generalizing res with
  | nil =>
    injection h with h2
    subst h2
    rfl
  | cons iu rest ih =>
    simp only [processAll] at h
    split at h
    · exact Except.noConfusion h
    · split at h
      · exact Except.noConfusion h
      · rename_i r hr
        injection h with h2
        subst h2
        simp only [List.map_cons]
        rw [ih r hr]

/-- Claim C2 (amended, proved): the mapping returned by a fresh sf2
conversion has exactly as many entries as there are distinct names among the
instruments not named `"EOI"` — instruments sharing a name collapse onto one
primary key, so the count equals instruments-minus-`EOI` only when the
non-`EOI` names are pairwise distinct. -/
theorem claimC2_amended (env : Sf2Env) (compress : Bool) (l : List (String × Sf2Patch))
    (h : sf22soundJson env compress = .ok (.computed l)) :
    l.length =
      ((env.instruments.map Sf2Inst.name).filter (fun nm => nm ≠ "EOI")).toFinset.card := by
  simp only [sf22soundJson] at h
  split at h
  · simp at h
  · split at h
    · rename_i hempty
      injection h with h2
      injection h2 with h3
      subst h3
      have hnil : sf2CollectGo [] env.instruments = [] := by
        cases hcase : sf2CollectGo [] env.instruments with
        | nil => rfl
        | cons a rest =>
          rw [hcase] at hempty
          exact Bool.noConfusion hempty
      have hnames := sf2CollectGo_names env.instruments []
      rw [hnil] at hnames
      rw [← hnames]
      rfl
    · split at h
      · exact Except.noConfusion h
      · rename_i kvs hkvs
        injection h with h2
        injection h2 with h3
        subst h3
        have hkeys := processAll_keys env compress _ kvs hkvs
        rcases foldl_dictInsert_keys kvs ([] : List (String × Sf2Patch)) (by simp) with
          ⟨hnd, htf⟩
        have hlen : (kvs.foldl (fun acc kv => dictInsert acc kv.1 kv.2) []).length
            = ((kvs.foldl (fun acc kv => dictInsert acc kv.1 kv.2) []).map Prod.fst).length :=
          (List.length_map _ _).symm
        rw [hlen, ← List.toFinset_card_of_nodup hnd, htf]
        simp only [List.map_nil, List.toFinset_nil, Finset.empty_union]
        rw [hkeys]
        have hcomp : (sf2CollectGo [] env.instruments).map
            (fun iu => env.inFilename ++ "_" ++ iu.1.name)
            = ((sf2CollectGo [] env.instruments).map (fun iu => iu.1.name)).map
              (fun nm => env.inFilename ++ "_" ++ nm) := by
          rw [List.map_map]
          rfl
        have hinj : Function.Injective (fun nm => env.inFilename ++ "_" ++ nm) :=
          fun a b hab => key_append_inj (env.inFilename ++ "_") a b hab
        rw [hcomp, sf2CollectGo_names, list_toFinset_map,
          Finset.card_image_of_injective _ hinj]

/-- Witness for the amended C2 at the two-`Piano` container: one entry, one
distinct non-`EOI` name. -/
theorem claimC2_amended_witness :
    (computedPatches (sf22soundJson envC2 false)).length =
      ((envC2.instruments.map Sf2Inst.name).filter (fun nm => nm ≠ "EOI")).toFinset.card :=
  claimC2_amended envC2 false (computedPatches (sf22soundJson envC2 false)) rfl
